import Mathlib

/-!
# hybrid-buildpackage: the hybrid layer written by `run` (main.go)

`run` builds one tar stream in an in-memory buffer through an `archive/tar`
writer, hashes the buffer, derives two JSON label documents from the parsed
`buildpack.toml`, assembles a two-layer image and writes it to the daemon or
pushes it to a registry.

The embedding follows main.go statement by statement.  The calls into
libraries (archive/tar, crypto/sha256, encoding/json, cargo, imgutil,
go-containerregistry) are the only parts that are not code of main.go; they
are modelled by the record `Env` (the values a library returns and the
failures it may report) and by a small model of `tar.Writer`. -/

namespace HybridBuildpackage

/-! ## Bytes and strings -/

abbrev Bytes := List UInt8

/-- Go `[]byte(s)`: the UTF-8 encoding of a string. -/
def toBytes (s : String) : Bytes :=
  s.toList.flatMap String.utf8EncodeChar

/-- Go `unicode.IsSpace`. -/
def isSpace (c : Char) : Bool :=
  c == '\t' || c == '\n' || c == '\x0b' || c == '\x0c' || c == '\r' || c == ' '
    || c.toNat == 0x85 || c.toNat == 0xA0 || c.toNat == 0x1680
    || (0x2000 ≤ c.toNat && c.toNat ≤ 0x200A)
    || c.toNat == 0x2028 || c.toNat == 0x2029 || c.toNat == 0x202F
    || c.toNat == 0x205F || c.toNat == 0x3000

/-- Go `strings.TrimSpace`: drop leading and trailing white space. -/
def TrimSpace (s : String) : String :=
  ⟨((s.toList.dropWhile isSpace).reverse.dropWhile isSpace).reverse⟩

/-! ## Package-level constants of main.go -/

/-- main.go:26 -/
def buildpackTomlContent : String := TrimSpace
  "\napi = \"0.2\"\n\n[buildpack]\nid = \"hybrid\"\nversion = \"0.0.1\"\nname = \"Hybrid OS Buildpack\"\n\n[[stacks]]\nid = \"io.buildpacks.samples.stacks.nanoserver-1809\"\n\n[[stacks]]\nid = \"io.buildpacks.samples.stacks.alpine\"\n"

/-- main.go:58 -/
def detectBatContent : String := TrimSpace "\nexit 0\n"

/-- main.go:62 -/
def buildBatContent : String := TrimSpace "\n@echo off\necho Hello windows\nexit 0\n"

/-- main.go:68 -/
def detectShContent : String := TrimSpace "\n#!/bin/sh\nexit 0\n"

/-- main.go:73 -/
def buildShContent : String := TrimSpace "\n#!/bin/sh\necho Hello linux\nexit 0\n"

/-- main.go:79 -/
def windowsReadSecurityDescriptor : String :=
  "AQAAgBQAAAAoAAAAAAAAAAAAAAABAwAAAAAABV0AAAACAAAAAQAAAAEDAAAAAAAFXQAAAAIAAAABAAAA"

/-- main.go:80, the Go literal `0777` (octal). -/
def linuxReadMode : Nat := 0o777

/-! ## archive/tar data model -/

/-- Go `tar.Format`. -/
inductive Format where
  | FormatUnknown
  | FormatUSTAR
  | FormatPAX
  | FormatGNU
  deriving DecidableEq, Repr

/-- Go `tar.TypeReg`. -/
def TypeReg : Char := '0'
/-- Go `tar.TypeSymlink`. -/
def TypeSymlink : Char := '2'
/-- Go `tar.TypeDir`. -/
def TypeDir : Char := '5'

/-- The fields of Go `tar.Header` that main.go sets; a field left out of a
composite literal has Go's zero value, which is the default here. -/
structure Header where
  Typeflag : Char := '\x00'
  Name : String := ""
  Linkname : String := ""
  Size : Nat := 0
  Mode : Nat := 0
  PAXRecords : List (String × String) := []
  Format : Format := Format.FormatUnknown
  deriving DecidableEq, Repr

/-- One call on a `tar.Writer`. -/
inductive TarCall where
  | WriteHeader (hdr : Header)
  | Write (b : Bytes)
  | Close
  deriving DecidableEq, Repr

/-- The calls `run` makes on `hybridWriter`, in program order (main.go:89-256).
Each call is followed in the source by `if err != nil \x7b return err \x7d`. -/
def archiveCalls : List TarCall := [
  -- main.go:89
  .WriteHeader { Name := "Files", Typeflag := TypeDir, Mode := linuxReadMode },
  -- main.go:96
  .WriteHeader { Name := "Hives", Typeflag := TypeDir },
  -- main.go:105
  .WriteHeader { Name := "Files/cnb", Typeflag := TypeDir, Mode := linuxReadMode },
  -- main.go:112
  .WriteHeader { Name := "Files/cnb/buildpacks", Typeflag := TypeDir, Mode := linuxReadMode },
  -- main.go:119
  .WriteHeader { Name := "Files/cnb/buildpacks/hybrid", Typeflag := TypeDir,
                 Mode := linuxReadMode },
  -- main.go:126
  .WriteHeader { Name := "Files/cnb/buildpacks/hybrid/0.0.1", Typeflag := TypeDir,
                 Mode := linuxReadMode },
  -- main.go:136
  .WriteHeader { Name := "Files/cnb/buildpacks/hybrid/0.0.1/buildpack.toml",
                 Typeflag := TypeReg,
                 Size := (toBytes buildpackTomlContent).length,
                 Mode := linuxReadMode,
                 PAXRecords := [("MSWINDOWS.rawsd", windowsReadSecurityDescriptor)],
                 Format := Format.FormatPAX },
  -- main.go:148
  .Write (toBytes buildpackTomlContent),
  -- main.go:154
  .WriteHeader { Name := "Files/cnb/buildpacks/hybrid/0.0.1/bin",
                 Typeflag := TypeDir,
                 Mode := 777,
                 PAXRecords := [("MSWINDOWS.rawsd", windowsReadSecurityDescriptor)],
                 Format := Format.FormatPAX },
  -- main.go:168
  .WriteHeader { Name := "Files/cnb/buildpacks/hybrid/0.0.1/bin/detect.bat",
                 Typeflag := TypeReg,
                 Size := (toBytes detectBatContent).length,
                 PAXRecords := [("MSWINDOWS.rawsd", windowsReadSecurityDescriptor)],
                 Format := Format.FormatPAX },
  -- main.go:179
  .Write (toBytes detectBatContent),
  -- main.go:182
  .WriteHeader { Name := "Files/cnb/buildpacks/hybrid/0.0.1/bin/build.bat",
                 Typeflag := TypeReg,
                 Size := (toBytes buildBatContent).length,
                 PAXRecords := [("MSWINDOWS.rawsd", windowsReadSecurityDescriptor)],
                 Format := Format.FormatPAX },
  -- main.go:193
  .Write (toBytes buildBatContent),
  -- main.go:199
  .WriteHeader { Name := "Files/cnb/buildpacks/hybrid/0.0.1/bin/detect",
                 Typeflag := TypeReg,
                 Size := (toBytes detectShContent).length,
                 Mode := linuxReadMode },
  -- main.go:207
  .Write (toBytes detectShContent),
  -- main.go:211
  .WriteHeader { Name := "Files/cnb/buildpacks/hybrid/0.0.1/bin/build",
                 Typeflag := TypeReg,
                 Size := (toBytes buildShContent).length,
                 Mode := linuxReadMode },
  -- main.go:219
  .Write (toBytes buildShContent),
  -- main.go:225
  .WriteHeader { Name := "cnb", Typeflag := TypeDir, Mode := linuxReadMode },
  -- main.go:232
  .WriteHeader { Name := "cnb/buildpacks", Typeflag := TypeDir, Mode := linuxReadMode },
  -- main.go:239
  .WriteHeader { Name := "cnb/buildpacks/hybrid", Typeflag := TypeDir, Mode := linuxReadMode },
  -- main.go:249
  .WriteHeader { Name := "cnb/buildpacks/hybrid/0.0.1",
                 Linkname := "/Files/cnb/buildpacks/hybrid/0.0.1",
                 Typeflag := TypeSymlink,
                 Mode := linuxReadMode }
]

/-- The header of a call, when the call is a `WriteHeader`. -/
def TarCall.header? : TarCall → Option Header
  | .WriteHeader hdr => some hdr
  | .Write _ => none
  | .Close => none

/-- The entry sequence of the hybrid layer: the headers `run` writes, in order. -/
def entries : List Header := archiveCalls.filterMap TarCall.header?

/-- An entry carries a Windows security descriptor when its PAX records have
the key `MSWINDOWS.rawsd`. -/
def hasSecurityDescriptor (hdr : Header) : Bool :=
  hdr.PAXRecords.any (fun kv => kv.1 == "MSWINDOWS.rawsd")

/-- An entry carries a POSIX mode when its `Mode` is not Go's zero value. -/
def hasPosixMode (hdr : Header) : Bool := hdr.Mode != 0

/-! ## Errors and the record of external behaviour -/

/-- A Go `error` value. -/
structure Error where
  msg : String
  deriving DecidableEq, Repr

/-- Go `tar.ErrWriteTooLong`. -/
def ErrWriteTooLong : Error := ⟨"archive/tar: write too long"⟩

/-- Go `tar.ErrWriteAfterClose`. -/
def ErrWriteAfterClose : Error := ⟨"archive/tar: write after close"⟩

/-- One 512-byte tar block. -/
structure Block where
  bytes : Bytes
  size_eq : bytes.length = 512

/-- The array returned by `sha256.Sum256`, Go type `[32]byte`. -/
structure Checksum where
  bytes : Bytes
  size_eq : bytes.length = 32

/-- A JSON value, as `encoding/json` builds it from a Go value before it is
written out as text. -/
inductive JSON where
  | null
  | str (s : String)
  | arr (xs : List JSON)
  | obj (members : List (String × JSON))

/-- The keys of a JSON object, in order; no keys for any other value. -/
def JSON.keys : JSON → List String
  | .obj members => members.map Prod.fst
  | _ => []

/-- The member of a JSON object under a key. -/
def JSON.get? : JSON → String → Option JSON
  | .obj members, k => members.lookup k
  | _, _ => none

/-- The part of cargo's `ConfigBuildpack` that `run` reads. -/
structure ConfigBuildpack where
  ID : String
  Version : String

/-- The part of cargo's `Config` that `run` reads.  `run` stores `Stacks` in
fields of type `interface\x7b\x7d`, so only its JSON value matters: it is kept as
the JSON value `encoding/json` produces for it. -/
structure Config where
  API : String
  Buildpack : ConfigBuildpack
  Stacks : JSON

/-- A go-containerregistry layer made by `tarball.LayerFromReader`: the
uncompressed byte stream read from the reader. -/
structure Layer where
  uncompressed : Bytes

/-- A go-containerregistry image: the labels of its config file and its layers. -/
structure Image where
  labels : List (String × String)
  layers : List Layer

/-- Go `empty.Image`. -/
def emptyImage : Image := ⟨[], []⟩

/-- Go `mutate.ConfigFile` with a config that only has labels. -/
def Image.ConfigFile (base : Image) (labels : List (String × String)) : Image :=
  { base with labels := labels }

/-- Go `mutate.AppendLayers`. -/
def Image.AppendLayers (base : Image) (layers : List Layer) : Image :=
  { base with layers := base.layers ++ layers }

/-- An external call made by `run`, with its arguments. -/
inductive Call where
  | tar (c : TarCall)
  | DecodeConfig (doc : String)
  | Marshal (v : JSON)
  | ConfigFile (labels : List (String × String))
  | WindowsBaseLayer
  | LayerFromReader (r : Bytes)
  | AppendLayers (base : Image) (layers : List Layer)
  | NewTag (name : String)
  | remoteWrite (tag : String) (img : Image)
  | Println (s : String)
  | daemonWrite (tag : String) (img : Image)
  | Copy (s : String)

/-- The call is a publish operation: the registry push or the daemon write. -/
def Call.isPublish : Call → Bool
  | .remoteWrite _ _ => true
  | .daemonWrite _ _ => true
  | _ => false

/-- The call is a write on the tar writer. -/
def Call.isTar : Call → Bool
  | .tar _ => true
  | _ => false

/-- What the libraries do, as far as `run` can observe it.
`fail n` is the error reported by the call that `run` makes at position `n` of
its call sequence, `none` when that call succeeds. -/
structure Env where
  fail : Nat → Option Error
  encodeHeader : Header → List Block
  DecodeConfig : String → Config
  Sum256 : Bytes → Checksum
  jsonText : JSON → String
  WindowsBaseLayer : Bytes
  daemonOutput : String

/-! ## A model of `tar.Writer` (Go standard library, archive/tar/writer.go)

The serialisation of a header into blocks is `encodeHeader`; the bookkeeping of
the writer (padding, bytes still owed to the current entry, sticky error) is
modelled here. -/

/-- Go `tar.Writer`: `w` is the content of the underlying buffer
(`hybridLayerBlob`), `nb` is `curr.logicalRemaining()`. -/
structure Writer where
  w : Bytes := []
  pad : Nat := 0
  nb : Nat := 0
  err : Option Error := none

/-- Go `tar.NewWriter(hybridLayerBlob)` on an empty buffer. -/
def NewWriter : Writer := {}

/-- Go `blockPadding`: `-offset & (blockSize - 1)`. -/
def blockPadding (offset : Nat) : Nat := (512 - offset % 512) % 512

/-- Go `isHeaderOnlyType`. -/
def isHeaderOnlyType (flag : Char) : Bool :=
  flag == '1' || flag == '2' || flag == '3' || flag == '4' || flag == '5' || flag == '6'

/-- The bytes of a list of blocks. -/
def blocksBytes (bs : List Block) : Bytes := bs.flatMap Block.bytes

/-- Go `(*Writer).Flush`. -/
def Writer.Flush (tw : Writer) : Except Error Writer :=
  match tw.err with
  | some e => .error e
  | none =>
    if tw.nb > 0 then
      .error ⟨"archive/tar: missed writing " ++ toString tw.nb ++ " bytes"⟩
    else
      .ok { tw with w := tw.w ++ List.replicate tw.pad 0, pad := 0 }

/-- Go `(*Writer).WriteHeader`: flush, write the header blocks, then expect
`Size` bytes of content (none for a header-only type). -/
def Writer.WriteHeader (encodeHeader : Header → List Block) (tw : Writer) (hdr : Header) :
    Except Error Writer :=
  match tw.Flush with
  | .error e => .error e
  | .ok tw =>
    let size := if isHeaderOnlyType hdr.Typeflag then 0 else hdr.Size
    .ok { tw with w := tw.w ++ blocksBytes (encodeHeader hdr),
                  nb := size, pad := blockPadding size }

/-- Go `(*Writer).Write` on a regular-file entry. -/
def Writer.Write (tw : Writer) (b : Bytes) : Except Error Writer :=
  match tw.err with
  | some e => .error e
  | none =>
    if b.length > tw.nb then .error ErrWriteTooLong
    else .ok { tw with w := tw.w ++ b, nb := tw.nb - b.length }

/-- Go `(*Writer).Close`: flush, then the trailer of two zero blocks. -/
def Writer.Close (tw : Writer) : Except Error Writer :=
  if tw.err = some ErrWriteAfterClose then .ok tw
  else
    match tw.Flush with
    | .error e => .error e
    | .ok tw =>
      .ok { tw with w := tw.w ++ List.replicate 512 0 ++ List.replicate 512 0,
                    err := some ErrWriteAfterClose }

/-- One call on the writer. -/
def Writer.apply (encodeHeader : Header → List Block) (tw : Writer) : TarCall → Except Error Writer
  | .WriteHeader hdr => tw.WriteHeader encodeHeader hdr
  | .Write b => tw.Write b
  | .Close => tw.Close

/-! ## The program `run` -/

/-- A computation of `run`: it extends the sequence of external calls made so
far and either yields a value or returns a Go error. -/
def RunM (α : Type) : Type := List Call → Except Error α × List Call

/-- Sequencing with Go's `if err != nil \x7b return err \x7d`. -/
def RunM.bind {α β : Type} (m : RunM α) (f : α → RunM β) : RunM β :=
  fun log =>
    match m log with
    | (.ok a, log1) => f a log1
    | (.error e, log1) => (.error e, log1)

instance : Monad RunM where
  pure a := fun log => (.ok a, log)
  bind := RunM.bind

/-- Make an external call: it is appended to the call sequence, and it fails
when the environment says that the call at this position fails. -/
def call (env : Env) (c : Call) : RunM Unit :=
  fun log =>
    match env.fail log.length with
    | some e => (.error e, log ++ [c])
    | none => (.ok (), log ++ [c])

/-- Make an external call whose error `run` ignores (`fmt.Println`). -/
def callIgnoringError (c : Call) : RunM Unit :=
  fun log => (.ok (), log ++ [c])

/-- Lift a result of the writer model. -/
def liftExcept {α : Type} : Except Error α → RunM α
  | .ok a => fun log => (.ok a, log)
  | .error e => fun log => (.error e, log)

/-- One call on `hybridWriter`, followed by `if err != nil \x7b return err \x7d`. -/
def tarCall (env : Env) (tw : Writer) (c : TarCall) : RunM Writer := do
  call env (.tar c)
  liftExcept (tw.apply env.encodeHeader c)

/-- The calls on `hybridWriter` in order, stopping at the first error. -/
def writeArchive (env : Env) : List TarCall → Writer → RunM Writer
  | [], tw => pure tw
  | c :: cs, tw => do
    let tw ← tarCall env tw c
    writeArchive env cs tw

/-- Go `fmt.Sprintf("%x", ...)` digits. -/
def hexDigit (n : Nat) : Char := "0123456789abcdef".toList.getD n '0'

/-- Go `%x` on one byte of a byte array: two lower-case digits. -/
def hexByte (b : UInt8) : List Char := [hexDigit (b.toNat / 16), hexDigit (b.toNat % 16)]

/-- Go `fmt.Sprintf("%x", sum)` for a byte array. -/
def hex (bs : Bytes) : String := ⟨bs.flatMap hexByte⟩

/-- The value of a lower-case hexadecimal digit, `none` for any other
character. -/
def hexValue (c : Char) : Option Nat :=
  if 48 ≤ c.toNat ∧ c.toNat ≤ 57 then some (c.toNat - 48)
  else if 97 ≤ c.toNat ∧ c.toNat ≤ 102 then some (c.toNat - 87)
  else none

/-- Decoding of lower-case hexadecimal text, two digits per byte, high nibble
first; `none` when the text is not such an encoding. -/
def decodeHex : List Char → Option Bytes
  | [] => some []
  | [_] => none
  | hi :: lo :: rest =>
    match hexValue hi, hexValue lo, decodeHex rest with
    | some h, some l, some bs => some (UInt8.ofNat (16 * h + l) :: bs)
    | _, _, _ => none

/-- main.go:264-265, `shasum` as a function of the buffer content. -/
def shasum (env : Env) (hybridLayerBlob : Bytes) : String :=
  "sha256:" ++ hex (env.Sum256 hybridLayerBlob).bytes

/-- main.go:267-279, the value `layerConfig`: a map with one key holding a map
with one key holding a struct with the JSON tags `api`, `stacks`, `layerDiffID`. -/
def layerConfig (buildpackConfig : Config) (shasum : String) : JSON :=
  .obj [(buildpackConfig.Buildpack.ID,
    .obj [(buildpackConfig.Buildpack.Version,
      .obj [("api", .str buildpackConfig.API),
            ("stacks", buildpackConfig.Stacks),
            ("layerDiffID", .str shasum)])])]

/-- main.go:281-289, the value `layerMetadata`. -/
def layerMetadata (buildpackConfig : Config) : JSON :=
  .obj [("id", .str buildpackConfig.Buildpack.ID),
        ("version", .str buildpackConfig.Buildpack.Version),
        ("stacks", buildpackConfig.Stacks)]

/-- main.go:303-306, the label map of the image config. -/
def labels (env : Env) (buildpackConfig : Config) (shasum : String) : List (String × String) :=
  [("io.buildpacks.buildpack.layers", env.jsonText (layerConfig buildpackConfig shasum)),
   ("io.buildpacks.buildpackage.metadata", env.jsonText (layerMetadata buildpackConfig))]

/-- main.go:258-355: `run` from the metadata step on, for the content
`hybridLayerBlob` of the buffer at that point. -/
def assemble (env : Env) (hybridLayerBlob : Bytes) (imageName : String) (publish : Bool) :
    RunM Unit := do
  -- generate image LABEL layer metadata
  call env (.DecodeConfig buildpackTomlContent)
  let buildpackConfig := env.DecodeConfig buildpackTomlContent
  let shasum := shasum env hybridLayerBlob
  let layerConfig := layerConfig buildpackConfig shasum
  let layerMetadata := layerMetadata buildpackConfig
  call env (.Marshal layerConfig)
  call env (.Marshal layerMetadata)
  -- initialize image with config
  call env (.ConfigFile (labels env buildpackConfig shasum))
  let image := emptyImage.ConfigFile (labels env buildpackConfig shasum)
  -- generate Windows-scratch base layer
  call env .WindowsBaseLayer
  let windowsBaseLayerReader := env.WindowsBaseLayer
  call env (.LayerFromReader windowsBaseLayerReader)
  let windowsScratchBaseLayer : Layer := ⟨windowsBaseLayerReader⟩
  -- generate hybrid layer
  call env (.LayerFromReader hybridLayerBlob)
  let hybridLayer : Layer := ⟨hybridLayerBlob⟩
  call env (.AppendLayers image [windowsScratchBaseLayer, hybridLayer])
  let image := image.AppendLayers [windowsScratchBaseLayer, hybridLayer]
  call env (.NewTag imageName)
  let tag := imageName
  if publish then
    call env (.remoteWrite tag image)
  else
    callIgnoringError (.Println "writing new image")
    call env (.daemonWrite tag image)
    let output := env.daemonOutput
    call env (.Copy output)
  return ()

/-- main.go:82-356, `run`: the archive is written into `hybridLayerBlob` through
`hybridWriter`, then the image is assembled from the content of the buffer. -/
def run (env : Env) (imageName : String) (publish : Bool) : RunM Unit := do
  let hybridWriter ← writeArchive env archiveCalls NewWriter
  assemble env hybridWriter.w imageName publish

/-! ## Paths of the hybrid layout -/

/-- The installation directory of the buildpack in the Windows subtree. -/
def installDir : String := "Files/cnb/buildpacks/hybrid/0.0.1"

/-- The manifest file. -/
def manifestPath : String := "Files/cnb/buildpacks/hybrid/0.0.1/buildpack.toml"

/-- The binaries directory. -/
def binDir : String := "Files/cnb/buildpacks/hybrid/0.0.1/bin"

/-- The entries of the sequence with a given name. -/
def entriesNamed (name : String) : List Header :=
  entries.filter (fun hdr => hdr.Name == name)

/-- The proper prefixes of a name that end right before a `/`, shortest first;
`pre` is the part of the name already read, reversed. -/
def ancestorsAux (pre : List Char) : List Char → List (List Char)
  | [] => []
  | c :: cs =>
    if c = '/' then pre.reverse :: ancestorsAux (c :: pre) cs
    else ancestorsAux (c :: pre) cs

/-- The proper ancestor paths of a slash-separated name. -/
def ancestors (name : String) : List String :=
  (ancestorsAux [] name.toList).map String.mk

/-- The name is `root` or lies under `root/`. -/
def underRoot (root name : String) : Bool :=
  name == root || name.toList.take (root.length + 1) == root.toList ++ ['/']

/-- The entry with this name is written once and carries both a POSIX mode
and a Windows security descriptor. -/
def carriesBoth (name : String) : Bool :=
  match entriesNamed name with
  | [hdr] => hasPosixMode hdr && hasSecurityDescriptor hdr
  | _ => false

/-! ## Definitions used to state and prove the properties -/

/-- The writer model alone on a list of calls, stopping at the first error. -/
def execTar (encodeHeader : Header → List Block) : List TarCall → Writer → Except Error Writer
  | [], tw => .ok tw
  | c :: cs, tw =>
    match tw.apply encodeHeader c with
    | .ok tw1 => execTar encodeHeader cs tw1
    | .error e => .error e

/-- Checked calls made in order, stopping at the first failure. -/
def callAll (env : Env) : List Call → RunM Unit
  | [], log => (.ok (), log)
  | c :: cs, log =>
    match call env c log with
    | (.ok _, log1) => callAll env cs log1
    | (.error e, log1) => (.error e, log1)

/-- The checked calls of main.go:258-338 with their arguments, in program order. -/
def metadataCalls (env : Env) (hybridLayerBlob : Bytes) (imageName : String) : List Call :=
  let buildpackConfig := env.DecodeConfig buildpackTomlContent
  let shasum := shasum env hybridLayerBlob
  let image := emptyImage.ConfigFile (labels env buildpackConfig shasum)
  [ .DecodeConfig buildpackTomlContent,
    .Marshal (layerConfig buildpackConfig shasum),
    .Marshal (layerMetadata buildpackConfig),
    .ConfigFile (labels env buildpackConfig shasum),
    .WindowsBaseLayer,
    .LayerFromReader env.WindowsBaseLayer,
    .LayerFromReader hybridLayerBlob,
    .AppendLayers image [⟨env.WindowsBaseLayer⟩, ⟨hybridLayerBlob⟩],
    .NewTag imageName ]

/-- The value of `image` at main.go:340, for the buffer content `hybridLayerBlob`. -/
def finalImage (env : Env) (hybridLayerBlob : Bytes) : Image :=
  (emptyImage.ConfigFile (labels env (env.DecodeConfig buildpackTomlContent)
      (shasum env hybridLayerBlob))).AppendLayers [⟨env.WindowsBaseLayer⟩, ⟨hybridLayerBlob⟩]

/-- The publish step, main.go:340-353. -/
def publishStep (env : Env) (hybridLayerBlob : Bytes) (imageName : String) (publish : Bool) :
    RunM Unit :=
  if publish then
    call env (.remoteWrite imageName (finalImage env hybridLayerBlob))
  else
    fun log =>
      match call env (.daemonWrite imageName (finalImage env hybridLayerBlob))
          (log ++ [.Println "writing new image"]) with
      | (.ok _, log1) => call env (.Copy env.daemonOutput) log1
      | (.error e, log1) => (.error e, log1)

/-- The calls of the publish step with their arguments, in program order. -/
def publishCalls (env : Env) (hybridLayerBlob : Bytes) (imageName : String) (publish : Bool) :
    List Call :=
  if publish then
    [.remoteWrite imageName (finalImage env hybridLayerBlob)]
  else
    [.Println "writing new image",
     .daemonWrite imageName (finalImage env hybridLayerBlob),
     .Copy env.daemonOutput]

/-- The bytes one call contributes to a tar stream: the blocks of a header, the
content of a file padded with zero bytes to a whole block, the trailer. -/
def callBlocks (encodeHeader : Header → List Block) : TarCall → Bytes
  | .WriteHeader hdr => blocksBytes (encodeHeader hdr)
  | .Write b => b ++ List.replicate (blockPadding b.length) 0
  | .Close => List.replicate 512 0 ++ List.replicate 512 0

/-- The blocks of the entries of the hybrid layer, in order. -/
def entryBlocks (encodeHeader : Header → List Block) : Bytes :=
  archiveCalls.flatMap (callBlocks encodeHeader)

/-- The end-of-archive marker: two zero-filled 512-byte blocks. -/
def endOfArchive : Bytes := List.replicate 512 0 ++ List.replicate 512 0

/-- The calls `run` makes before the publish step, in program order. -/
def plannedCalls (env : Env) (imageName : String) : List Call :=
  archiveCalls.map Call.tar ++ metadataCalls env (entryBlocks env.encodeHeader) imageName

/-- A descriptor as cargo parses it from `buildpackTomlContent`; the value of
`Stacks` is the two stack ids as objects with the key `id`. -/
def sampleConfig : Config :=
  { API := "0.2",
    Buildpack := { ID := "hybrid", Version := "0.0.1" },
    Stacks := .arr [.obj [("id", .str "io.buildpacks.samples.stacks.nanoserver-1809")],
                    .obj [("id", .str "io.buildpacks.samples.stacks.alpine")]] }

/-- An environment in which every call succeeds: each header is one block of
bytes 1, the digest is 32 bytes 0xab. -/
def sampleEnv : Env :=
  { fail := fun _ => none,
    encodeHeader := fun _ => [⟨List.replicate 512 1, List.length_replicate _ _⟩],
    DecodeConfig := fun _ => sampleConfig,
    Sum256 := fun _ => ⟨List.replicate 32 0xab, List.length_replicate _ _⟩,
    jsonText := fun _ => "",
    WindowsBaseLayer := [],
    daemonOutput := "" }

/-- The environment `sampleEnv` except that the call at position 7 (the write of
the content of buildpack.toml) fails. -/
def failingEnv : Env :=
  { sampleEnv with fail := fun n => if n = 7 then some ⟨"short write"⟩ else none }

/-! ## Lemmas on sequencing -/

/-- Unfolding of sequencing at a call sequence. -/
theorem RunM.bind_apply {α β : Type} (m : RunM α) (f : α → RunM β) (log : List Call) :
    (m >>= f) log = match m log with
      | (.ok a, log1) => f a log1
      | (.error e, log1) => (.error e, log1) := rfl

/-- Unfolding of `pure` at a call sequence. -/
theorem RunM.pure_apply {α : Type} (a : α) (log : List Call) :
    (pure a : RunM α) log = (.ok a, log) := rfl

/-- When none of the calls fails, all of them are made and the result is success. -/
theorem callAll_ok (env : Env) : ∀ (calls : List Call) (log : List Call),
    (∀ i, i < calls.length → env.fail (log.length + i) = none) →
    callAll env calls log = (.ok (), log ++ calls) := by
  intro calls
  induction calls with
  | nil => intro log _; simp [callAll]
  | cons c cs ih =>
    intro log h
    have h0 := h 0 (by simp)
    simp only [Nat.add_zero] at h0
    have ih1 := ih (log ++ [c]) (by
      intro i hi
      have := h (i + 1) (by simpa using hi)
      simpa [Nat.add_assoc, Nat.add_comm 1 i] using this)
    simp [callAll, call, h0, ih1]

/-- When the call at offset `k` is the first to fail, its error is returned and
exactly the first `k + 1` calls are made. -/
theorem callAll_fail (env : Env) : ∀ (calls : List Call) (log : List Call) (k : Nat) (e : Error),
    k < calls.length → env.fail (log.length + k) = some e →
    (∀ i, i < k → env.fail (log.length + i) = none) →
    callAll env calls log = (.error e, log ++ calls.take (k + 1)) := by
  intro calls
  induction calls with
  | nil => intro log k e hk; simp at hk
  | cons c cs ih =>
    intro log k e hk hf hok
    cases k with
    | zero =>
      simp only [Nat.add_zero] at hf
      simp [callAll, call, hf]
    | succ k =>
      have h0 := hok 0 (by simp)
      simp only [Nat.add_zero] at h0
      have ih1 := ih (log ++ [c]) k e (by simpa using hk)
        (by simpa [Nat.add_assoc, Nat.add_comm 1 k] using hf)
        (by
          intro i hi
          have := hok (i + 1) (by omega)
          simpa [Nat.add_assoc, Nat.add_comm 1 i] using this)
      simp [callAll, call, h0, ih1]

/-- When the writer model accepts the calls, `writeArchive` makes them as checked
calls and yields the final writer. -/
theorem writeArchive_eq (env : Env) : ∀ (calls : List TarCall) (tw tw1 : Writer) (log : List Call),
    execTar env.encodeHeader calls tw = .ok tw1 →
    writeArchive env calls tw log =
      match callAll env (calls.map Call.tar) log with
      | (.ok _, log1) => (.ok tw1, log1)
      | (.error e, log1) => (.error e, log1) := by
  intro calls
  induction calls with
  | nil =>
    intro tw tw1 log h
    simp [execTar] at h
    simp [writeArchive, callAll, RunM.pure_apply, h]
  | cons c cs ih =>
    intro tw tw1 log h
    simp only [execTar] at h
    cases hc : tw.apply env.encodeHeader c with
    | error e => simp [hc] at h
    | ok tw2 =>
      simp only [hc] at h
      have ih1 := ih tw2 tw1 (log ++ [Call.tar c]) h
      simp only [writeArchive, tarCall, RunM.bind_apply, List.map_cons, callAll, hc, liftExcept]
      cases hf : env.fail log.length with
      | some e => simp [call, hf]
      | none => simp [call, hf, ih1]

/-- From the metadata step on, `run` makes the calls of `metadataCalls` and then
the publish step. -/
theorem assemble_eq (env : Env) (b : Bytes) (imageName : String) (publish : Bool)
    (log : List Call) :
    assemble env b imageName publish log =
      match callAll env (metadataCalls env b imageName) log with
      | (.ok _, log1) => publishStep env b imageName publish log1
      | (.error e, log1) => (.error e, log1) := by
  simp only [assemble, metadataCalls, callAll, publishStep, RunM.bind_apply, call,
    callIgnoringError, finalImage, RunM.pure_apply]
  cases publish <;>
  simp only [Bool.false_eq_true, if_true, if_false, RunM.bind_apply, call, callIgnoringError,
    RunM.pure_apply] <;>
  repeat (first | rfl | (split <;> simp_all))

/-- The writer model accepts the archive calls of `run` and leaves the blocks of
the entries in the buffer, with nothing pending. -/
theorem execTar_archiveCalls (enc : Header → List Block) :
    execTar enc archiveCalls NewWriter = .ok { w := entryBlocks enc } := by
  simp [execTar, archiveCalls, Writer.apply, Writer.WriteHeader, Writer.Write, Writer.Flush,
    NewWriter, entryBlocks, callBlocks, isHeaderOnlyType, TypeDir, TypeReg, TypeSymlink, blockPadding]

/-- Checked calls of a concatenation. -/
theorem callAll_append (env : Env) : ∀ (xs ys : List Call) (log : List Call),
    callAll env (xs ++ ys) log =
      match callAll env xs log with
      | (.ok _, log1) => callAll env ys log1
      | (.error e, log1) => (.error e, log1) := by
  intro xs
  induction xs with
  | nil => intro ys log; simp [callAll]
  | cons c cs ih =>
    intro ys log
    simp only [List.cons_append, callAll]
    cases hf : env.fail log.length with
    | some e => simp [call, hf]
    | none => simp [call, hf, ih]

/-- Unfolding of `run`: the archive phase, then `assemble` on the buffer content. -/
theorem run_eq_writeArchive (env : Env) (imageName : String) (publish : Bool) (log : List Call) :
    run env imageName publish log =
      match writeArchive env archiveCalls NewWriter log with
      | (.ok hybridWriter, log1) => assemble env hybridWriter.w imageName publish log1
      | (.error e, log1) => (.error e, log1) := by
  simp only [run, RunM.bind_apply]
  cases writeArchive env archiveCalls NewWriter log with
  | mk r log1 => cases r <;> rfl

/-- The calls of `run` are those of `plannedCalls`, then the publish step. -/
theorem run_eq_plan (env : Env) (imageName : String) (publish : Bool) (log : List Call) :
    run env imageName publish log =
      match callAll env (plannedCalls env imageName) log with
      | (.ok _, log1) => publishStep env (entryBlocks env.encodeHeader) imageName publish log1
      | (.error e, log1) => (.error e, log1) := by
  rw [run_eq_writeArchive, writeArchive_eq env _ _ _ _ (execTar_archiveCalls env.encodeHeader),
    plannedCalls, callAll_append]
  cases h : callAll env (List.map Call.tar archiveCalls) log with
  | mk r log1 =>
    cases r with
    | error e => simp
    | ok u => simp [assemble_eq]

/-- A failing position has a first failing position at or before it. -/
theorem exists_first_failure (fail : Nat → Option Error) : ∀ (k : Nat) (e : Error),
    fail k = some e →
    ∃ k1 e1, k1 ≤ k ∧ fail k1 = some e1 ∧ ∀ j, j < k1 → fail j = none := by
  intro k
  induction k using Nat.strong_induction_on with
  | _ k ih =>
    intro e hf
    by_cases h : ∀ j, j < k → fail j = none
    · exact ⟨k, e, le_refl k, hf, h⟩
    · push_neg at h
      obtain ⟨j, hj, hne⟩ := h
      cases he2 : fail j with
      | none => exact absurd he2 hne
      | some e2 =>
        obtain ⟨k1, e1, hle, hf1, hmin⟩ := ih j hj e2 he2
        exact ⟨k1, e1, by omega, hf1, hmin⟩

/-- There are 30 calls before the publish step. -/
theorem plannedCalls_length (env : Env) (imageName : String) :
    (plannedCalls env imageName).length = 30 := by
  simp [plannedCalls, metadataCalls, archiveCalls]

/-- No call before the publish step is a publish operation. -/
theorem plannedCalls_not_publish (env : Env) (imageName : String) :
    ∀ c ∈ plannedCalls env imageName, c.isPublish = false := by
  intro c hc
  simp only [plannedCalls, List.mem_append, List.mem_map] at hc
  rcases hc with ⟨t, _, rfl⟩ | hc
  · rfl
  · simp only [metadataCalls, List.mem_cons, List.mem_singleton] at hc
    simp at hc
    rcases hc with h | h | h | h | h | h | h | h | h <;> subst h <;> rfl

/-- When the first failing call is before the publish step, `run` returns its
error and stops there. -/
theorem run_fail_before_publish (env : Env) (imageName : String) (publish : Bool)
    (k : Nat) (e : Error) (hk : k < 30) (hf : env.fail k = some e)
    (hok : ∀ j, j < k → env.fail j = none) :
    run env imageName publish [] = (.error e, (plannedCalls env imageName).take (k + 1)) := by
  rw [run_eq_plan, callAll_fail env (plannedCalls env imageName) [] k e
    (by rw [plannedCalls_length]; exact hk) (by simpa using hf) (by simpa using hok)]
  simp

/-! ## The entry sequence -/

/-- C1 (as stated, refuted): the installation directory
`Files/cnb/buildpacks/hybrid/0.0.1` is written once, with the POSIX mode
`linuxReadMode` and with no PAX record, so it does not carry both attributes. -/
theorem installDir_lacks_security_descriptor :
    carriesBoth installDir = false ∧
    entriesNamed installDir =
      [{ Name := "Files/cnb/buildpacks/hybrid/0.0.1", Typeflag := TypeDir,
         Mode := linuxReadMode }] := by
  decide

/-- C1 (amended): each of the three shared paths is written as exactly one
entry; the manifest and the binaries directory carry both a non-zero POSIX mode
and a `MSWINDOWS.rawsd` record; the installation directory carries the POSIX
mode `linuxReadMode` and no security descriptor. -/
theorem shared_paths_single_entry :
    (entriesNamed installDir).length = 1 ∧
    (entriesNamed manifestPath).length = 1 ∧
    (entriesNamed binDir).length = 1 ∧
    carriesBoth manifestPath = true ∧
    carriesBoth binDir = true ∧
    (entriesNamed installDir).map (fun hdr => (hdr.Mode, hasSecurityDescriptor hdr))
      = [(linuxReadMode, false)] ∧
    linuxReadMode ≠ 0 := by
  decide

/-- C4: every proper ancestor path of an entry name is a Directory entry at a
strictly earlier position, and every entry in the `Files` subtree comes before
every entry in the `cnb` subtree. -/
theorem parents_first_and_Files_before_cnb :
    (∀ i : Fin entries.length, ∀ a ∈ ancestors (entries.get i).Name,
      ∃ j : Fin entries.length, j < i ∧ (entries.get j).Name = a ∧
        (entries.get j).Typeflag = TypeDir) ∧
    (∀ i j : Fin entries.length, underRoot "Files" (entries.get i).Name = true →
      underRoot "cnb" (entries.get j).Name = true → i < j) := by
  decide

/-- C5: the last entry is the only Symlink entry; it is named
`cnb/buildpacks/hybrid/0.0.1`, has a non-zero mode, and its link target is `/`
followed by the name of the installation directory, which is a Directory entry
at an earlier position. -/
theorem symlink_is_last_and_targets_installDir :
    entries.getLast? =
      some { Name := "cnb/buildpacks/hybrid/0.0.1",
             Linkname := "/Files/cnb/buildpacks/hybrid/0.0.1",
             Typeflag := TypeSymlink, Mode := linuxReadMode } ∧
    entries.filter (fun hdr => hdr.Typeflag == TypeSymlink) =
      [{ Name := "cnb/buildpacks/hybrid/0.0.1",
         Linkname := "/Files/cnb/buildpacks/hybrid/0.0.1",
         Typeflag := TypeSymlink, Mode := linuxReadMode }] ∧
    linuxReadMode ≠ 0 ∧
    "/Files/cnb/buildpacks/hybrid/0.0.1" = "/" ++ installDir ∧
    (∃ j : Fin entries.length, j.val + 1 < entries.length ∧
      (entries.get j).Name = installDir ∧ (entries.get j).Typeflag = TypeDir) := by
  decide

/-- C6: the Windows launchers `bin/detect.bat` and `bin/build.bat` are regular
files with a security descriptor and mode 0; the Linux launchers `bin/detect`
and `bin/build` are regular files with the non-zero mode `linuxReadMode` and no
security descriptor. -/
theorem launchers_carry_only_their_own_attribute :
    (entriesNamed "Files/cnb/buildpacks/hybrid/0.0.1/bin/detect.bat").map
        (fun hdr => (hdr.Typeflag, hdr.Mode, hasSecurityDescriptor hdr)) = [(TypeReg, 0, true)] ∧
    (entriesNamed "Files/cnb/buildpacks/hybrid/0.0.1/bin/build.bat").map
        (fun hdr => (hdr.Typeflag, hdr.Mode, hasSecurityDescriptor hdr)) = [(TypeReg, 0, true)] ∧
    (entriesNamed "Files/cnb/buildpacks/hybrid/0.0.1/bin/detect").map
        (fun hdr => (hdr.Typeflag, hdr.Mode, hasSecurityDescriptor hdr))
      = [(TypeReg, linuxReadMode, false)] ∧
    (entriesNamed "Files/cnb/buildpacks/hybrid/0.0.1/bin/build").map
        (fun hdr => (hdr.Typeflag, hdr.Mode, hasSecurityDescriptor hdr))
      = [(TypeReg, linuxReadMode, false)] ∧
    linuxReadMode ≠ 0 ∧
    (entries.filter (fun hdr => hdr.Typeflag == TypeReg)).map Header.Name =
      ["Files/cnb/buildpacks/hybrid/0.0.1/buildpack.toml",
       "Files/cnb/buildpacks/hybrid/0.0.1/bin/detect.bat",
       "Files/cnb/buildpacks/hybrid/0.0.1/bin/build.bat",
       "Files/cnb/buildpacks/hybrid/0.0.1/bin/detect",
       "Files/cnb/buildpacks/hybrid/0.0.1/bin/build"] := by
  decide

/-- C7 (the code at the failing input): the entry `Hives` is the one entry with
neither a POSIX mode nor a security descriptor, while `Files` carries
`linuxReadMode`. -/
theorem Hives_has_no_permission_attribute :
    entries.filter (fun hdr => !hasPosixMode hdr && !hasSecurityDescriptor hdr) =
      [{ Name := "Hives", Typeflag := TypeDir }] ∧
    (entriesNamed "Hives").map (fun hdr => (hdr.Mode, hdr.PAXRecords)) = [(0, [])] ∧
    (entriesNamed "Files").map (fun hdr => (hdr.Mode, hdr.PAXRecords)) = [(linuxReadMode, [])] := by
  decide

/-- C9 (the code at the failing input): the binaries directory is the one entry
whose non-zero mode is not `linuxReadMode`: its mode is decimal 777, and
777 AND octal 555 is octal 411; it is an ancestor of `bin/detect` and of
`bin/build`. -/
theorem binDir_mode_is_decimal_777 :
    linuxReadMode = 511 ∧
    (entries.filter (fun hdr => hasPosixMode hdr && hdr.Mode != linuxReadMode)).map
        (fun hdr => (hdr.Name, hdr.Mode, hdr.Mode &&& 0o555))
      = [("Files/cnb/buildpacks/hybrid/0.0.1/bin", 777, 0o411)] ∧
    (0o411 : Nat) ≠ 0o555 ∧
    binDir ∈ ancestors "Files/cnb/buildpacks/hybrid/0.0.1/bin/detect" ∧
    binDir ∈ ancestors "Files/cnb/buildpacks/hybrid/0.0.1/bin/build" := by
  decide

/-! ## The calls of `run` -/

/-- Checked calls only add calls of the given list. -/
theorem callAll_mem (env : Env) : ∀ (calls : List Call) (log : List Call) (c : Call),
    c ∈ (callAll env calls log).2 → c ∈ log ∨ c ∈ calls := by
  intro calls
  induction calls with
  | nil => intro log c h; simpa [callAll] using h
  | cons x xs ih =>
    intro log c h
    simp only [callAll, call] at h
    cases hf : env.fail log.length with
    | some e =>
      simp only [hf] at h
      simp only [List.mem_append, List.mem_singleton] at h
      rcases h with h | h
      · exact Or.inl h
      · exact Or.inr (by simp [h])
    | none =>
      simp only [hf] at h
      rcases ih _ c h with h1 | h1
      · simp only [List.mem_append, List.mem_singleton] at h1
        rcases h1 with h1 | h1
        · exact Or.inl h1
        · exact Or.inr (by simp [h1])
      · exact Or.inr (by simp [h1])

/-- The publish step only adds calls of `publishCalls`. -/
theorem publishStep_mem (env : Env) (b : Bytes) (imageName : String) (publish : Bool)
    (log : List Call) (c : Call) (h : c ∈ (publishStep env b imageName publish log).2) :
    c ∈ log ∨ c ∈ publishCalls env b imageName publish := by
  cases publish
  · simp only [publishStep, publishCalls, call, Bool.false_eq_true, if_false] at h ⊢
    cases h1 : env.fail (log ++ [Call.Println "writing new image"]).length with
    | some e =>
      simp only [h1, List.mem_append, List.mem_singleton] at h
      simp only [List.mem_cons, List.mem_singleton]
      tauto
    | none =>
      simp only [h1] at h
      split at h <;>
      · simp only [List.mem_append, List.mem_singleton] at h
        simp only [List.mem_cons, List.mem_singleton]
        tauto
  · simp only [publishStep, publishCalls, call, if_true] at h ⊢
    split at h <;>
    · simp only [List.mem_append, List.mem_singleton] at h
      simp only [List.mem_cons, List.mem_singleton]
      tauto

/-- From the metadata step on, `run` only makes calls of `metadataCalls` and
`publishCalls`. -/
theorem assemble_mem (env : Env) (b : Bytes) (imageName : String) (publish : Bool)
    (log : List Call) (c : Call) (h : c ∈ (assemble env b imageName publish log).2) :
    c ∈ log ∨ c ∈ metadataCalls env b imageName ∨ c ∈ publishCalls env b imageName publish := by
  rw [assemble_eq] at h
  cases hc : callAll env (metadataCalls env b imageName) log with
  | mk r log1 =>
    have hm := callAll_mem env (metadataCalls env b imageName) log c
    rw [hc] at h hm
    cases r with
    | error e =>
      rcases hm h with h1 | h1
      · exact Or.inl h1
      · exact Or.inr (Or.inl h1)
    | ok u =>
      simp only at h
      rcases publishStep_mem env b imageName publish log1 c h with h1 | h1
      · rcases hm h1 with h2 | h2
        · exact Or.inl h2
        · exact Or.inr (Or.inl h2)
      · exact Or.inr (Or.inr h1)

/-- When no call fails, the publish step makes all its calls and succeeds. -/
theorem publishStep_ok (env : Env) (b : Bytes) (imageName : String) (publish : Bool)
    (log : List Call) (hok : ∀ k, log.length ≤ k → env.fail k = none) :
    publishStep env b imageName publish log =
      (.ok (), log ++ publishCalls env b imageName publish) := by
  cases publish
  · have h1 := hok (log ++ [Call.Println "writing new image"]).length (by simp)
    have h2 := hok (log ++ [Call.Println "writing new image"] ++
      [Call.daemonWrite imageName (finalImage env b)]).length (by simp)
    simp only [publishStep, publishCalls, call, Bool.false_eq_true, if_false, h1, h2]
    simp
  · have h1 := hok log.length (le_refl _)
    simp only [publishStep, publishCalls, call, if_true, h1]

/-- When no call fails, `run` from the metadata step on makes all its calls and
succeeds. -/
theorem assemble_ok (env : Env) (b : Bytes) (imageName : String) (publish : Bool)
    (log : List Call) (hok : ∀ k, log.length ≤ k → env.fail k = none) :
    assemble env b imageName publish log =
      (.ok (), log ++ metadataCalls env b imageName ++ publishCalls env b imageName publish) := by
  rw [assemble_eq, callAll_ok env _ log (fun i _ => hok _ (by omega))]
  exact publishStep_ok env b imageName publish _ (fun k hk => hok k (by
    rw [List.length_append] at hk; omega))

/-- When no call fails, `run` returns nil after the 30 calls before the publish
step and the calls of the publish step. -/
theorem run_ok (env : Env) (imageName : String) (publish : Bool)
    (hok : ∀ k, env.fail k = none) :
    run env imageName publish [] =
      (.ok (), plannedCalls env imageName ++
        publishCalls env (entryBlocks env.encodeHeader) imageName publish) := by
  rw [run_eq_plan, callAll_ok env _ [] (fun i _ => hok _)]
  simpa using publishStep_ok env (entryBlocks env.encodeHeader) imageName publish
    ([] ++ plannedCalls env imageName) (fun k _ => hok k)

/-- A digit below 16 is printed as a lower-case hexadecimal character. -/
theorem hexDigit_mem (n : Nat) (h : n < 16) : hexDigit n ∈ "0123456789abcdef".toList := by
  revert n
  decide

/-- Two characters per byte. -/
theorem hex_length (bs : Bytes) : (hex bs).length = 2 * bs.length := by
  show (bs.flatMap hexByte).length = 2 * bs.length
  induction bs with
  | nil => rfl
  | cons b bs ih =>
    simp only [List.flatMap_cons, List.length_append, List.length_cons, ih, hexByte]
    simp
    omega

/-- Every character of `hex` is a lower-case hexadecimal digit. -/
theorem hex_lowercase (bs : Bytes) : ∀ c ∈ (hex bs).toList, c ∈ "0123456789abcdef".toList := by
  intro c hc
  have hc1 : c ∈ bs.flatMap hexByte := hc
  rw [List.mem_flatMap] at hc1
  obtain ⟨b, _, hb⟩ := hc1
  simp only [hexByte, List.mem_cons, List.mem_singleton, List.not_mem_nil, or_false] at hb
  have hlt : b.toNat < 256 := b.val.isLt
  rcases hb with rfl | rfl
  · exact hexDigit_mem _ (by omega)
  · exact hexDigit_mem _ (Nat.mod_lt _ (by decide))

/-- The value of the digit printed for a nibble is the nibble. -/
theorem hexValue_hexDigit (n : Nat) (h : n < 16) : hexValue (hexDigit n) = some n := by
  revert n
  decide

/-- A byte is rebuilt from its two nibbles. -/
theorem ofNat_nibbles (b : UInt8) : UInt8.ofNat (16 * (b.toNat / 16) + b.toNat % 16) = b := by
  rw [Nat.div_add_mod]
  cases b with
  | mk v =>
    show UInt8.mk (BitVec.ofNat 8 v.toNat) = UInt8.mk v
    rw [BitVec.ofNat_toNat, BitVec.setWidth_eq]

/-- Decoding the two digits of a byte gives the byte back. -/
theorem decodeHex_hexByte_append (b : UInt8) (rest : List Char) (bs : Bytes)
    (h : decodeHex rest = some bs) : decodeHex (hexByte b ++ rest) = some (b :: bs) := by
  have hlt : b.toNat < 256 := b.val.isLt
  show decodeHex (hexDigit (b.toNat / 16) :: hexDigit (b.toNat % 16) :: rest) = some (b :: bs)
  simp only [decodeHex, hexValue_hexDigit _ (show b.toNat / 16 < 16 by omega),
    hexValue_hexDigit _ (Nat.mod_lt _ (by decide : 0 < 16)), h, ofNat_nibbles]

/-- The text printed by `%x` decodes to the bytes printed. -/
theorem decodeHex_hex (bs : Bytes) : decodeHex (hex bs).toList = some bs := by
  show decodeHex (bs.flatMap hexByte) = some bs
  induction bs with
  | nil => rfl
  | cons b bs ih =>
    rw [List.flatMap_cons]
    exact decodeHex_hexByte_append b _ bs ih

/-- The calls of `run` are calls of `plannedCalls` and `publishCalls`. -/
theorem run_mem (env : Env) (imageName : String) (publish : Bool) (c : Call)
    (h : c ∈ (run env imageName publish []).2) :
    c ∈ plannedCalls env imageName ∨
      c ∈ publishCalls env (entryBlocks env.encodeHeader) imageName publish := by
  rw [run_eq_plan] at h
  cases hc : callAll env (plannedCalls env imageName) [] with
  | mk r log1 =>
    have hm := callAll_mem env (plannedCalls env imageName) [] c
    rw [hc] at h hm
    cases r with
    | error e =>
      rcases hm h with h1 | h1
      · simp at h1
      · exact Or.inl h1
    | ok u =>
      simp only at h
      rcases publishStep_mem env _ imageName publish log1 c h with h1 | h1
      · rcases hm h1 with h2 | h2
        · simp at h2
        · exact Or.inl h2
      · exact Or.inr h1

/-- Blocks are 512 bytes each. -/
theorem blocksBytes_length (bs : List Block) : (blocksBytes bs).length = 512 * bs.length := by
  induction bs with
  | nil => rfl
  | cons b bs ih =>
    have hb := b.size_eq
    simp only [blocksBytes, List.flatMap_cons, List.length_append, List.length_cons] at ih ⊢
    omega

/-- Each call contributes a whole number of blocks. -/
theorem callBlocks_length (enc : Header → List Block) (c : TarCall) :
    (callBlocks enc c).length % 512 = 0 := by
  cases c with
  | WriteHeader hdr => simp [callBlocks, blocksBytes_length]
  | Write b =>
    simp only [callBlocks, List.length_append, List.length_replicate, blockPadding]
    omega
  | Close => simp only [callBlocks, List.length_append, List.length_replicate]

/-- A sequence of calls contributes a whole number of blocks. -/
theorem flatMap_callBlocks_length (enc : Header → List Block) (cs : List TarCall) :
    (cs.flatMap (callBlocks enc)).length % 512 = 0 := by
  induction cs with
  | nil => rfl
  | cons c cs ih =>
    have hc := callBlocks_length enc c
    simp only [List.flatMap_cons, List.length_append]
    omega

/-- When no archive call fails, the archive phase of `run` leaves the blocks of
the entries in the buffer and the writer open. -/
theorem writeArchive_archiveCalls (env : Env)
    (hok : ∀ k, k < archiveCalls.length → env.fail k = none) :
    writeArchive env archiveCalls NewWriter [] =
      (.ok { w := entryBlocks env.encodeHeader }, archiveCalls.map Call.tar) := by
  rw [writeArchive_eq env _ _ _ _ (execTar_archiveCalls env.encodeHeader),
    callAll_ok env _ [] (fun i hi => by
      rw [List.length_map] at hi
      simpa using hok i hi)]
  simp

/-- C10 (as stated, refuted): `run` makes no `Close` call on the tar writer, and
in no environment is the content of the buffer after the last archive call the
blocks of the entries followed by the end-of-archive marker. -/
theorem buffer_has_no_end_of_archive_marker :
    TarCall.Close ∉ archiveCalls ∧
    ¬ ∃ (env : Env) (tw : Writer),
        (writeArchive env archiveCalls NewWriter []).1 = .ok tw ∧
        tw.w = entryBlocks env.encodeHeader ++ endOfArchive := by
  refine ⟨by decide, ?_⟩
  rintro ⟨env, tw, hrun, hw⟩
  rw [writeArchive_eq env _ _ _ _ (execTar_archiveCalls env.encodeHeader)] at hrun
  cases hc : callAll env (List.map Call.tar archiveCalls) [] with
  | mk r log1 =>
    rw [hc] at hrun
    cases r with
    | error e => simp at hrun
    | ok u =>
      simp only [Except.ok.injEq] at hrun
      subst hrun
      have hlen := congrArg List.length hw
      simp only [endOfArchive, List.length_append, List.length_replicate] at hlen
      omega

/-- C10 (amended): when no archive call fails, the writer is left open after the
last entry (no `Close` call, no sticky error, nothing owed), the buffer holds
exactly the blocks of the entries, each a whole number of 512-byte blocks, with
no end-of-archive marker, and this buffer content is what `run` hashes and
wraps as the hybrid layer; closing the writer would have appended the marker. -/
theorem buffer_is_entry_blocks_without_marker (env : Env) (imageName : String) (publish : Bool)
    (hok : ∀ k, k < archiveCalls.length → env.fail k = none) :
    TarCall.Close ∉ archiveCalls ∧
    writeArchive env archiveCalls NewWriter [] =
      (.ok { w := entryBlocks env.encodeHeader, pad := 0, nb := 0, err := none },
       archiveCalls.map Call.tar) ∧
    run env imageName publish [] =
      assemble env (entryBlocks env.encodeHeader) imageName publish (archiveCalls.map Call.tar) ∧
    entryBlocks env.encodeHeader = archiveCalls.flatMap (callBlocks env.encodeHeader) ∧
    (∀ c ∈ archiveCalls, (callBlocks env.encodeHeader c).length % 512 = 0) ∧
    (entryBlocks env.encodeHeader).length % 512 = 0 ∧
    Writer.Close { w := entryBlocks env.encodeHeader } =
      .ok { w := entryBlocks env.encodeHeader ++ endOfArchive,
            err := some ErrWriteAfterClose } := by
  refine ⟨by decide, writeArchive_archiveCalls env hok, ?_, rfl,
    fun c _ => callBlocks_length _ c, flatMap_callBlocks_length _ _, ?_⟩
  · rw [run_eq_writeArchive, writeArchive_archiveCalls env hok]
  · simp only [Writer.Close, Writer.Flush, endOfArchive, List.replicate_zero, List.append_nil,
      List.append_assoc, reduceCtorEq, if_false, gt_iff_lt, lt_self_iff_false]

/-- C10 (amended), at `sampleEnv`. -/
theorem buffer_is_entry_blocks_without_marker_witness :
    (∀ k, k < archiveCalls.length → sampleEnv.fail k = none) ∧
    run sampleEnv "ref" false [] =
      assemble sampleEnv (entryBlocks sampleEnv.encodeHeader) "ref" false
        (archiveCalls.map Call.tar) :=
  ⟨fun _ _ => rfl,
   (buffer_is_entry_blocks_without_marker sampleEnv "ref" false (fun _ _ => rfl)).2.2.1⟩

/-- C8: if the archive call at position `k` fails with `e` and the earlier ones
succeed, `run` returns `e` and its calls are exactly the first `k + 1` archive
calls, none of them a publish operation; and whenever any call before the
publish step fails, `run` returns the error of the first failing call, stops
there, and has made no publish call. -/
theorem write_failure_aborts_without_publish (env : Env) (imageName : String) (publish : Bool) :
    (∀ k e, k < archiveCalls.length → env.fail k = some e →
      (∀ j, j < k → env.fail j = none) →
      run env imageName publish [] = (.error e, (archiveCalls.take (k + 1)).map Call.tar) ∧
      (∀ c ∈ (run env imageName publish []).2, c.isPublish = false)) ∧
    (∀ k e, k < (plannedCalls env imageName).length → env.fail k = some e →
      ∃ k1 e1, k1 ≤ k ∧ env.fail k1 = some e1 ∧
        run env imageName publish [] =
          (.error e1, (plannedCalls env imageName).take (k1 + 1)) ∧
        (∀ c ∈ (run env imageName publish []).2, c.isPublish = false)) := by
  constructor
  · intro k e hk hf hok
    have hk21 : k < 21 := by simpa [archiveCalls] using hk
    have hrun := run_fail_before_publish env imageName publish k e (by omega) hf hok
    have htake : (plannedCalls env imageName).take (k + 1) =
        (archiveCalls.take (k + 1)).map Call.tar := by
      rw [plannedCalls, List.take_append_of_le_length (by
        rw [List.length_map]; exact hk), List.map_take]
    rw [htake] at hrun
    refine ⟨hrun, ?_⟩
    intro c hc
    rw [hrun] at hc
    simp only [List.mem_map] at hc
    obtain ⟨t, _, rfl⟩ := hc
    rfl
  · intro k e hk hf
    rw [plannedCalls_length] at hk
    obtain ⟨k1, e1, hle, hf1, hmin⟩ := exists_first_failure env.fail k e hf
    have hrun := run_fail_before_publish env imageName publish k1 e1 (by omega) hf1 hmin
    refine ⟨k1, e1, hle, hf1, hrun, ?_⟩
    intro c hc
    rw [hrun] at hc
    exact plannedCalls_not_publish env imageName c (List.mem_of_mem_take hc)

/-- C8, at `failingEnv`: the write of the content of buildpack.toml fails. -/
theorem write_failure_aborts_without_publish_witness :
    run failingEnv "ref" false [] =
      (.error ⟨"short write"⟩, (archiveCalls.take 8).map Call.tar) ∧
    (∀ c ∈ (run failingEnv "ref" false []).2, c.isPublish = false) :=
  (write_failure_aborts_without_publish failingEnv "ref" false).1 7 ⟨"short write"⟩
    (by decide) rfl (fun j hj => by
      show (if j = 7 then some (Error.mk "short write") else none) = none
      rw [if_neg (by omega)])

/-- The digest is found in the layer index under id, version, `layerDiffID`. -/
theorem layerDiffID_of_layerConfig (cfg : Config) (d : String) :
    ((layerConfig cfg d).get? cfg.Buildpack.ID).bind
        (fun byVersion => (byVersion.get? cfg.Buildpack.Version).bind
          (fun info => info.get? "layerDiffID")) = some (.str d) := by
  simp [layerConfig, JSON.get?, List.lookup]

/-- C3 (as stated, refuted): for the descriptor of the embedded buildpack.toml
the innermost object of the layer index has the keys `api`, `stacks`,
`layerDiffID`; it has no key `layerDigest`. -/
theorem layer_index_has_no_layerDigest_key :
    (((layerConfig sampleConfig "sha256:00").get? "hybrid").bind
        (fun byVersion => byVersion.get? "0.0.1")).map JSON.keys
      = some ["api", "stacks", "layerDiffID"] ∧
    ¬ (((layerConfig sampleConfig "sha256:00").get? "hybrid").bind
        (fun byVersion => byVersion.get? "0.0.1")).map JSON.keys
      = some ["api", "stacks", "layerDigest"] := by
  decide

/-- C3 (amended): the label `io.buildpacks.buildpack.layers` is the JSON text of
an object with the one key id, holding an object with the one key version,
holding an object with exactly the keys `api`, `stacks`, `layerDiffID` with the
descriptor's api, its stacks and the digest; the label
`io.buildpacks.buildpackage.metadata` is the JSON text of an object with exactly
the keys `id`, `version`, `stacks`; and these are the labels `run` passes to
`mutate.ConfigFile`. -/
theorem label_documents (env : Env) (cfg : Config) (d : String) (hybridLayerBlob : Bytes)
    (imageName : String) (publish : Bool) :
    labels env cfg d =
      [("io.buildpacks.buildpack.layers", env.jsonText (layerConfig cfg d)),
       ("io.buildpacks.buildpackage.metadata", env.jsonText (layerMetadata cfg))] ∧
    (layerConfig cfg d).keys = [cfg.Buildpack.ID] ∧
    (∃ byVersion info,
      (layerConfig cfg d).get? cfg.Buildpack.ID = some byVersion ∧
      byVersion.keys = [cfg.Buildpack.Version] ∧
      byVersion.get? cfg.Buildpack.Version = some info ∧
      info.keys = ["api", "stacks", "layerDiffID"] ∧
      info.get? "api" = some (.str cfg.API) ∧
      info.get? "stacks" = some cfg.Stacks ∧
      info.get? "layerDiffID" = some (.str d)) ∧
    (layerMetadata cfg).keys = ["id", "version", "stacks"] ∧
    (layerMetadata cfg).get? "id" = some (.str cfg.Buildpack.ID) ∧
    (layerMetadata cfg).get? "version" = some (.str cfg.Buildpack.Version) ∧
    (layerMetadata cfg).get? "stacks" = some cfg.Stacks ∧
    (∀ ls, Call.ConfigFile ls ∈ (assemble env hybridLayerBlob imageName publish []).2 →
      ls = labels env (env.DecodeConfig buildpackTomlContent) (shasum env hybridLayerBlob)) := by
  refine ⟨rfl, rfl,
    ⟨.obj [(cfg.Buildpack.Version,
        .obj [("api", .str cfg.API), ("stacks", cfg.Stacks), ("layerDiffID", .str d)])],
     .obj [("api", .str cfg.API), ("stacks", cfg.Stacks), ("layerDiffID", .str d)],
     by simp [layerConfig, JSON.get?, List.lookup], rfl,
     by simp [JSON.get?, List.lookup], rfl, by simp [JSON.get?, List.lookup],
     by simp [JSON.get?, List.lookup], by simp [JSON.get?, List.lookup]⟩, rfl,
    by simp [layerMetadata, JSON.get?, List.lookup],
    by simp [layerMetadata, JSON.get?, List.lookup],
    by simp [layerMetadata, JSON.get?, List.lookup], ?_⟩
  intro ls hls
  rcases assemble_mem env hybridLayerBlob imageName publish [] _ hls with h | h | h
  · simp at h
  · simp only [metadataCalls, List.mem_cons, List.mem_singleton, List.not_mem_nil] at h
    simpa using h
  · cases publish <;> simp [publishCalls] at h

/-- C3 (amended), at `sampleEnv`: the `mutate.ConfigFile` call is made, with the
two labels. -/
theorem label_documents_witness :
    Call.ConfigFile (labels sampleEnv (sampleEnv.DecodeConfig buildpackTomlContent)
        (shasum sampleEnv [])) ∈ (assemble sampleEnv [] "ref" false []).2 ∧
    labels sampleEnv (sampleEnv.DecodeConfig buildpackTomlContent) (shasum sampleEnv []) =
      [("io.buildpacks.buildpack.layers",
          sampleEnv.jsonText (layerConfig (sampleEnv.DecodeConfig buildpackTomlContent)
            (shasum sampleEnv []))),
       ("io.buildpacks.buildpackage.metadata",
          sampleEnv.jsonText (layerMetadata (sampleEnv.DecodeConfig buildpackTomlContent)))] :=
  have hmem : Call.ConfigFile (labels sampleEnv (sampleEnv.DecodeConfig buildpackTomlContent)
      (shasum sampleEnv [])) ∈ (assemble sampleEnv [] "ref" false []).2 := by
    rw [assemble_ok sampleEnv [] "ref" false [] (fun _ _ => rfl)]
    simp [metadataCalls]
  have h := label_documents sampleEnv (sampleEnv.DecodeConfig buildpackTomlContent)
    (shasum sampleEnv []) [] "ref" false
  ⟨hmem, (h.2.2.2.2.2.2.2 _ hmem).trans h.1⟩

/-- C2: the digest in the layer index is `sha256:` followed by the 64 lower-case
hexadecimal digits that encode the SHA-256 of the buffer content
`hybridLayerBlob` (decoding them gives the 32 bytes of the sum back); from the
metadata step on `run` makes no call on the tar writer; the hybrid layer is made
from that same content, and every image `run` publishes has the Windows base
layer and that layer as its layers and the digest of that layer in its label.
The content in question is the one the tar writer leaves in the buffer. -/
theorem digest_matches_appended_layer (env : Env) (hybridLayerBlob : Bytes)
    (imageName : String) (publish : Bool) :
    shasum env hybridLayerBlob = "sha256:" ++ hex (env.Sum256 hybridLayerBlob).bytes ∧
    (hex (env.Sum256 hybridLayerBlob).bytes).length = 64 ∧
    (∀ c ∈ (hex (env.Sum256 hybridLayerBlob).bytes).toList, c ∈ "0123456789abcdef".toList) ∧
    decodeHex (hex (env.Sum256 hybridLayerBlob).bytes).toList
      = some (env.Sum256 hybridLayerBlob).bytes ∧
    ((layerConfig (env.DecodeConfig buildpackTomlContent) (shasum env hybridLayerBlob)).get?
        (env.DecodeConfig buildpackTomlContent).Buildpack.ID).bind
      (fun byVersion =>
        (byVersion.get? (env.DecodeConfig buildpackTomlContent).Buildpack.Version).bind
          (fun info => info.get? "layerDiffID"))
      = some (.str (shasum env hybridLayerBlob)) ∧
    (∀ c ∈ (assemble env hybridLayerBlob imageName publish []).2,
      c.isTar = false ∧
      (∀ r, c = .LayerFromReader r → r = env.WindowsBaseLayer ∨ r = hybridLayerBlob) ∧
      (∀ base ls, c = .AppendLayers base ls →
        base.labels = labels env (env.DecodeConfig buildpackTomlContent)
          (shasum env hybridLayerBlob) ∧
        ls = [⟨env.WindowsBaseLayer⟩, ⟨hybridLayerBlob⟩]) ∧
      (∀ tag img, c = .remoteWrite tag img ∨ c = .daemonWrite tag img →
        img.labels = labels env (env.DecodeConfig buildpackTomlContent)
          (shasum env hybridLayerBlob) ∧
        img.layers = [⟨env.WindowsBaseLayer⟩, ⟨hybridLayerBlob⟩] ∧
        ∀ l ∈ img.layers.getLast?,
          "sha256:" ++ hex (env.Sum256 l.uncompressed).bytes = shasum env hybridLayerBlob)) ∧
    (∀ hybridWriter log1,
      writeArchive env archiveCalls NewWriter [] = (.ok hybridWriter, log1) →
      run env imageName publish [] = assemble env hybridWriter.w imageName publish log1) ∧
    (∀ c ∈ (run env imageName publish []).2,
      ∀ tag img, c = .remoteWrite tag img ∨ c = .daemonWrite tag img →
        img.labels = labels env (env.DecodeConfig buildpackTomlContent)
          (shasum env (entryBlocks env.encodeHeader)) ∧
        img.layers = [⟨env.WindowsBaseLayer⟩, ⟨entryBlocks env.encodeHeader⟩] ∧
        ∀ l ∈ img.layers.getLast?,
          decodeHex ((shasum env (entryBlocks env.encodeHeader)).toList.drop 7)
            = some (env.Sum256 l.uncompressed).bytes) := by
  refine ⟨rfl, ?_, hex_lowercase _, decodeHex_hex _, layerDiffID_of_layerConfig _ _, ?_, ?_, ?_⟩
  · rw [hex_length, (env.Sum256 hybridLayerBlob).size_eq]
  · intro c hc
    rcases assemble_mem env hybridLayerBlob imageName publish [] _ hc with h | h | h
    · simp at h
    · simp only [metadataCalls, List.mem_cons, List.mem_singleton, List.not_mem_nil,
        or_false] at h
      rcases h with h | h | h | h | h | h | h | h | h <;> subst h <;>
        simp [Call.isTar, Image.ConfigFile, emptyImage]
    · cases publish
      · simp only [publishCalls, Bool.false_eq_true, if_false, List.mem_cons,
          List.mem_singleton, List.not_mem_nil, or_false] at h
        rcases h with h | h | h <;> subst h <;>
          simp [Call.isTar, finalImage, Image.ConfigFile, Image.AppendLayers, emptyImage, shasum]
      · simp only [publishCalls, if_true, List.mem_singleton] at h
        subst h
        simp [Call.isTar, finalImage, Image.ConfigFile, Image.AppendLayers, emptyImage, shasum]
  · intro hybridWriter log1 hw
    rw [run_eq_writeArchive, hw]
  · intro c hc tag img hpub
    have himg : img = finalImage env (entryBlocks env.encodeHeader) := by
      rcases run_mem env imageName publish c hc with h | h
      · have hnp := plannedCalls_not_publish env imageName c h
        rcases hpub with rfl | rfl <;> simp [Call.isPublish] at hnp
      · cases publish
        · simp only [publishCalls, Bool.false_eq_true, if_false, List.mem_cons,
            List.mem_singleton, List.not_mem_nil, or_false] at h
          rcases hpub with rfl | rfl <;> simp at h
          exact h.2
        · simp only [publishCalls, if_true, List.mem_singleton] at h
          rcases hpub with rfl | rfl <;> simp at h
          exact h.2
    subst himg
    refine ⟨rfl, rfl, ?_⟩
    intro l hl
    simp only [finalImage, Image.AppendLayers, Image.ConfigFile, emptyImage, List.nil_append,
      List.getLast?, List.getLast, Option.mem_def, Option.some.injEq] at hl
    subst hl
    exact decodeHex_hex _

/-- C2, at `sampleEnv`: `run` makes the daemon write, and the image written has
the digest of its own hybrid layer, `sha256:` and 32 times `ab`. -/
theorem digest_matches_appended_layer_witness :
    Call.daemonWrite "ref" (finalImage sampleEnv (entryBlocks sampleEnv.encodeHeader)) ∈
      (run sampleEnv "ref" false []).2 ∧
    (finalImage sampleEnv (entryBlocks sampleEnv.encodeHeader)).layers =
      [⟨sampleEnv.WindowsBaseLayer⟩, ⟨entryBlocks sampleEnv.encodeHeader⟩] ∧
    (∀ l ∈ (finalImage sampleEnv (entryBlocks sampleEnv.encodeHeader)).layers.getLast?,
      decodeHex ((shasum sampleEnv (entryBlocks sampleEnv.encodeHeader)).toList.drop 7)
        = some (sampleEnv.Sum256 l.uncompressed).bytes) ∧
    shasum sampleEnv (entryBlocks sampleEnv.encodeHeader) =
      "sha256:abababababababababababababababababababababababababababababababab" ∧
    hex [0x00, 0x0f, 0xab, 0xff] = "000fabff" :=
  have hmem : Call.daemonWrite "ref" (finalImage sampleEnv (entryBlocks sampleEnv.encodeHeader)) ∈
      (run sampleEnv "ref" false []).2 := by
    rw [run_ok sampleEnv "ref" false (fun _ => rfl)]
    simp [publishCalls]
  have h := (digest_matches_appended_layer sampleEnv [] "ref" false).2.2.2.2.2.2.2 _ hmem
    "ref" (finalImage sampleEnv (entryBlocks sampleEnv.encodeHeader)) (Or.inr rfl)
  ⟨hmem, h.2.1, h.2.2, by decide, by decide⟩

end HybridBuildpackage
